import Mathlib

/-!
# Connection registry and message relay of `server.js`

A shallow embedding of the WebSocket part of `src/server.js`:

* the process-wide object `users` (name to socket),
* the `message` handler (lines 104-130) with its `login` and `chat` branches,
* the `close` handler (lines 132-137),
* `broadcastUsers` (lines 140-147),
* the live-reload callback of `fs.watch` (lines 150-156).

Sockets are identified by natural numbers.  Every call `x.send(payload)` made by
a handler is recorded, in program order, as a pair `(x, payload)`.
-/

namespace Server

/-! ## Data model -/

/-- A socket object `ws`, identified by a number. -/
abbrev Conn := Nat

/-- The four values of `ws.readyState` (`WebSocket.OPEN` is the one the source tests). -/
inductive ReadyState where
  | CONNECTING
  | OPEN
  | CLOSING
  | CLOSED
  deriving DecidableEq, Repr

/-- The value of a field of a parsed frame (`d.username`, `d.to`, `d.msg`), and
of the property `ws.username`.  The handlers never check the type of a field,
so every value `JSON.parse` can produce is covered: `undefined` is an absent
field; a number is given by the text `String(x)` of it (so both zeros are `0`);
an array or object is given by the result of its string coercion (`none` when
the coercion throws a `TypeError`) and by its JSON text. -/
inductive JSValue where
  | undefined
  | null
  | bool (b : Bool)
  | number (text : String)
  | string (s : String)
  | object (coerced : Option String) (json : String)
  deriving DecidableEq, Repr

/-- The property key a value denotes in `users[v]` (the string coercion of `v`),
or `none` when the coercion throws. -/
def JSValue.toPropertyKey : JSValue → Option String
  | .undefined => some "undefined"
  | .null => some "null"
  | .bool true => some "true"
  | .bool false => some "false"
  | .number text => some text
  | .string s => some s
  | .object coerced _ => coerced

/-- Truthiness of a value, as tested by `if (ws.username)`: `undefined`, `null`,
`false`, zero and the empty string are falsy. -/
def JSValue.truthy : JSValue → Bool
  | .undefined => false
  | .null => false
  | .bool b => b
  | .number text => text != "0"
  | .string s => s != ""
  | .object _ _ => true

/-- Own properties of the plain object `users = {}` in the order of their creation. -/
abbrev Users := List (String × Conn)

/-- Property names every plain object inherits from `Object.prototype`; each of
them holds a function (or, for `__proto__`, the prototype object), so reading
one of them through `users[k]` yields a truthy value that is not a socket. -/
def objectPrototypeKeys : List String :=
  ["constructor", "__defineGetter__", "__defineSetter__", "hasOwnProperty",
   "__lookupGetter__", "__lookupSetter__", "isPrototypeOf", "propertyIsEnumerable",
   "toString", "valueOf", "__proto__", "toLocaleString"]

/-- What the expression `users[k]` evaluates to. -/
inductive Value where
  | undefined
  | inherited
  | socket (ws : Conn)
  deriving DecidableEq, Repr

/-- Truthiness of the value read from `users[k]`, as tested by `if (users[k])`. -/
def Value.truthy : Value → Bool
  | .undefined => false
  | .inherited => true
  | .socket _ => true

/-- The read `users[k]`: an own property wins, otherwise the prototype chain is consulted. -/
def Users.get (users : Users) (k : String) : Value :=
  match users.lookup k with
  | some ws => .socket ws
  | none => if objectPrototypeKeys.contains k then .inherited else .undefined

/-- The assignment `users[k] = ws`: overwrites an own property in place or
appends a new one.  (The source only assigns after `users[k]` was read as
falsy, so the setter behind the name `__proto__` is never reached.) -/
def Users.set (users : Users) (k : String) (ws : Conn) : Users :=
  if (users.lookup k).isSome then
    users.map (fun e => if e.1 = k then (k, ws) else e)
  else users ++ [(k, ws)]

/-- The statement `delete users[k]`. -/
def Users.delete (users : Users) (k : String) : Users :=
  users.filter (fun e => e.1 ≠ k)

/-- Value of a string of decimal digits. -/
def digitsValue (cs : List Char) : Nat :=
  cs.foldl (fun n c => 10 * n + (c.toNat - 48)) 0

/-- The array index a property name denotes, if it is a canonical numeric
string below `2^32 - 1`; such names are enumerated first, in ascending order. -/
def arrayIndex (k : String) : Option Nat :=
  match k.data with
  | [] => none
  | c :: cs =>
    if (c :: cs).all Char.isDigit && (c != '0' || cs.isEmpty)
        && decide (digitsValue (c :: cs) < 2 ^ 32 - 1) then
      some (digitsValue (c :: cs))
    else none

/-- Own properties in the enumeration order of `Object.keys` / `Object.values`:
array indices ascending, then the other names in order of creation. -/
def Users.ordered (users : Users) : Users :=
  (users.filter (fun e => (arrayIndex e.1).isSome)).insertionSort
      (fun a b => (arrayIndex a.1).getD 0 ≤ (arrayIndex b.1).getD 0)
    ++ users.filter (fun e => (arrayIndex e.1).isNone)

/-- The list `Object.keys(users)`. -/
def Users.keys (users : Users) : List String :=
  users.ordered.map Prod.fst

/-- The list `Object.values(users)`. -/
def Users.values (users : Users) : List Conn :=
  users.ordered.map Prod.snd

/-- Payloads handed to `send`: the three JSON messages and the literal `reload`.
In `chat` the fields `from` and `msg` carry `ws.username` and `d.msg` as they
are; `JSON.stringify` drops a field whose value is `undefined`. -/
inductive Message where
  | error (msg : String)
  | chat (sender : JSValue) (msg : JSValue)
  | users (users : List String)
  | reload
  deriving DecidableEq, Repr

/-- One call `x.send(payload)`. -/
abbrev Send := Conn × Message

/-- An inbound frame as the `message` handler sees it: the literal `ping`; a
payload on which `JSON.parse` or the access `d.type` throws; an object whose
`type` is `login`, with whatever value its field `username` has; an object
whose `type` is `chat`, with whatever values its fields `to` and `msg` have;
any other JSON value, for which both `if` tests of the handler are false. -/
inductive Frame where
  | ping
  | malformed
  | login (username : JSValue)
  | chat (recipient : JSValue) (msg : JSValue)
  | other
  deriving DecidableEq, Repr

/-- Server state: the registry `users` and, per socket, the property
`ws.username` (`undefined` until a login assigns it) and the transport's
`ws.readyState`. -/
structure State where
  users : Users
  username : Conn → JSValue
  readyState : Conn → ReadyState

/-! ## Handlers -/

/-- Lines 140-147: `broadcastUsers`. -/
def broadcastUsers (s : State) : List Send :=
  let list := s.users.keys
  s.users.values.filterMap (fun ws =>
    if s.readyState ws = .OPEN then some (ws, Message.users list) else none)

/-- Lines 104-130: the `message` handler of socket `ws`.  A `TypeError` raised
inside the `try` (a field whose string coercion throws, or an inherited
property that has no `send`) ends the handler in the empty `catch`. -/
def onMessage (s : State) (ws : Conn) : Frame → State × List Send
  | .ping => (s, [])
  | .malformed => (s, [])
  | .login username =>
    match username.toPropertyKey with
    | none => (s, [])
    | some k =>
      if (s.users.get k).truthy then
        (s, [(ws, .error "name used")])
      else
        let s1 : State :=
          { users := s.users.set k ws
            username := Function.update s.username ws username
            readyState := s.readyState }
        (s1, broadcastUsers s1)
  | .chat recipient msg =>
    match recipient.toPropertyKey with
    | none => (s, [])
    | some k =>
      match s.users.get k with
      | .socket target => (s, [(target, .chat (s.username ws) msg)])
      | .inherited => (s, [])
      | .undefined => (s, [])
  | .other => (s, [])

/-- Lines 132-137: the `close` handler of socket `ws`.  (The coercion in
`delete users[ws.username]` cannot throw for a value the login branch stored,
which coerced it first; for other states that case is given no effect.) -/
def onClose (s : State) (ws : Conn) : State × List Send :=
  if (s.username ws).truthy then
    match (s.username ws).toPropertyKey with
    | none => (s, [])
    | some k =>
      let s1 : State :=
        { users := s.users.delete k
          username := s.username
          readyState := s.readyState }
      (s1, broadcastUsers s1)
  else (s, [])

/-- Lines 150-156: the `fs.watch` callback over `wss.clients`. -/
def onWatch (s : State) (clients : List Conn) : State × List Send :=
  (s, clients.filterMap (fun c =>
    if s.readyState c = .OPEN then some (c, Message.reload) else none))

/-! ## Event system -/

/-- Events the transport delivers: a frame on a socket, the start of the
closing handshake (the socket leaves `OPEN`), and the `close` event. -/
inductive Event where
  | message (ws : Conn) (f : Frame)
  | closing (ws : Conn)
  | close (ws : Conn)
  deriving DecidableEq, Repr

/-- State with `ws.readyState` replaced. -/
def State.withReadyState (s : State) (ws : Conn) (r : ReadyState) : State :=
  { users := s.users
    username := s.username
    readyState := Function.update s.readyState ws r }

/-- One event.  Frames arrive only on sockets that have not had their `close`
event, `close` fires at most once per socket and the transport sets
`readyState` to `CLOSED` before the handler runs. -/
def step (s : State) : Event → Option (State × List Send)
  | .message ws f =>
    if s.readyState ws ≠ .CLOSED then some (onMessage s ws f) else none
  | .closing ws =>
    if s.readyState ws = .OPEN then some (s.withReadyState ws .CLOSING, []) else none
  | .close ws =>
    if s.readyState ws ≠ .CLOSED then some (onClose (s.withReadyState ws .CLOSED) ws)
    else none

/-- The state at start-up: empty registry, no socket has a name, every socket
is `OPEN` until the transport says otherwise. -/
def init : State :=
  { users := []
    username := fun _ => .undefined
    readyState := fun _ => .OPEN }

/-- Runs a sequence of events, failing if one of them cannot occur. -/
def run (s : State) : List Event → Option State
  | [] => some s
  | e :: es =>
    match step s e with
    | some (s1, _) => run s1 es
    | none => none

/-- States reachable from start-up by some sequence of events. -/
def Reachable (s : State) : Prop :=
  ∃ es : List Event, run init es = some s

/-- The payloads sent to socket `c` in a list of `send` calls. -/
def sentTo (out : List Send) (c : Conn) : List Message :=
  (out.filter (fun p => p.1 = c)).map Prod.snd

/-! ## Scenarios -/

/-- Socket 0 logs in as `a`, logs in again as `b`, then closes. -/
def reloginThenClose : List Event :=
  [.message 0 (.login (.string "a")), .message 0 (.login (.string "b")), .close 0]

/-- Socket 0 after its login as `a` on the fresh server. -/
def aliceBound : State :=
  (onMessage init 0 (.login (.string "a"))).1

/-- Socket 1 logs in as `b` after socket 0 logged in as `a`. -/
def aliceAndBob : State :=
  (onMessage aliceBound 1 (.login (.string "b"))).1

/-- Socket 0 logs in as `a` and then as `b`, socket 1 logs in as `c`. -/
def twoNamesAndCarol : State :=
  (onMessage (onMessage aliceBound 0 (.login (.string "b"))).1 1 (.login (.string "c"))).1

/-! ## Invariants -/

/-- Every socket that has not had its `close` event and whose `ws.username` is
not `undefined` is the socket the registry holds under the key of that value. -/
def OwnsName (s : State) : Prop :=
  ∀ x k, s.readyState x ≠ .CLOSED → s.username x ≠ .undefined →
    (s.username x).toPropertyKey = some k → s.users.lookup k = some x

/-- Every `ws.username` that is not `undefined` has a property key, and that
key is not an inherited property name of the registry object. -/
def NamesFresh (s : State) : Prop :=
  ∀ x, s.username x ≠ .undefined →
    ∃ k, (s.username x).toPropertyKey = some k ∧ objectPrototypeKeys.contains k = false

/-! ## Properties of the registry object -/

theorem lookup_append_single (us : Users) (k k1 : String) (c : Conn) :
    (us ++ [(k1, c)]).lookup k =
      match us.lookup k with
      | some x => some x
      | none => if k = k1 then some c else none := by
  induction us with
  | nil =>
    by_cases h : k = k1
    · simp [List.lookup, h]
    · have hb : (k == k1) = false := by simpa using h
      simp [List.lookup, hb, h]
  | cons e es ih =>
    obtain ⟨a, b⟩ := e
    by_cases h : k = a
    · simp [List.lookup, h]
    · have hb : (k == a) = false := by simpa using h
      simp only [List.cons_append, List.lookup, hb]
      exact ih

theorem lookup_delete_self (us : Users) (k : String) : (Users.delete us k).lookup k = none := by
  induction us with
  | nil => rfl
  | cons e es ih =>
    obtain ⟨a, b⟩ := e
    by_cases h : a = k
    · simpa [Users.delete, List.filter, h] using ih
    · have hb : (k == a) = false := by simpa using fun h1 => h h1.symm
      simp only [Users.delete, List.filter, h, ne_eq, not_false_eq_true, decide_True,
        List.lookup, hb]
      exact ih

theorem lookup_delete_ne (us : Users) (k k1 : String) (hne : k1 ≠ k) :
    (Users.delete us k).lookup k1 = us.lookup k1 := by
  induction us with
  | nil => rfl
  | cons e es ih =>
    obtain ⟨a, b⟩ := e
    by_cases h : a = k
    · subst h
      have hb : (k1 == a) = false := by simpa using hne
      simp only [Users.delete, List.filter, ne_eq, not_true_eq_false, decide_False,
        List.lookup, hb]
      simpa [Users.delete] using ih
    · simp only [Users.delete, List.filter, h, ne_eq, not_false_eq_true, decide_True,
        List.lookup]
      cases hk : (k1 == a)
      · simpa [Users.delete] using ih
      · rfl

theorem lookup_isSome_iff (us : Users) (k : String) :
    (us.lookup k).isSome = true ↔ k ∈ us.map Prod.fst := by
  induction us with
  | nil => simp [List.lookup]
  | cons e es ih =>
    obtain ⟨a, b⟩ := e
    by_cases h : k = a
    · simp [List.lookup, h]
    · have hb : (k == a) = false := by simpa using h
      simp only [List.lookup, hb, List.map_cons, List.mem_cons, h, false_or]
      exact ih

theorem lookup_mem (us : Users) (k : String) (c : Conn) (h : us.lookup k = some c) :
    (k, c) ∈ us := by
  induction us with
  | nil => simp [List.lookup] at h
  | cons e es ih =>
    obtain ⟨a, b⟩ := e
    by_cases hk : k = a
    · subst hk
      simp [List.lookup] at h
      simp [h]
    · have hb : (k == a) = false := by simpa using hk
      simp only [List.lookup, hb] at h
      exact List.mem_cons_of_mem _ (ih h)

theorem ordered_perm (us : Users) : (Users.ordered us).Perm us := by
  unfold Users.ordered
  have h2 : (fun e : String × Conn => (arrayIndex e.1).isNone)
      = fun e => !(arrayIndex e.1).isSome := by
    funext e
    cases arrayIndex e.1 <;> rfl
  rw [h2]
  exact ((List.perm_insertionSort _ _).append_right _).trans (List.filter_append_perm _ us)

theorem mem_keys (us : Users) (k : String) :
    k ∈ Users.keys us ↔ (us.lookup k).isSome = true := by
  rw [lookup_isSome_iff]
  exact ((ordered_perm us).map Prod.fst).mem_iff

theorem mem_values (us : Users) (c : Conn) :
    c ∈ Users.values us ↔ ∃ k, (k, c) ∈ us := by
  unfold Users.values
  rw [((ordered_perm us).map Prod.snd).mem_iff]
  simp

theorem get_truthy_false (us : Users) (k : String) :
    (Users.get us k).truthy = false ↔
      us.lookup k = none ∧ objectPrototypeKeys.contains k = false := by
  unfold Users.get
  cases h : us.lookup k with
  | none =>
    cases hp : objectPrototypeKeys.contains k <;> simp [Value.truthy]
  | some c => simp [Value.truthy]

theorem set_of_absent (us : Users) (k : String) (c : Conn) (h : us.lookup k = none) :
    Users.set us k c = us ++ [(k, c)] := by
  simp [Users.set, h]

/-! ## Preservation of the invariants -/

theorem truthy_ne_undefined (v : JSValue) (h : v.truthy = true) : v ≠ .undefined := by
  intro hv
  subst hv
  simp [JSValue.truthy] at h

theorem onMessage_preserves (s : State) (ws : Conn) (f : Frame)
    (hb : OwnsName s) (hn : NamesFresh s) :
    OwnsName (onMessage s ws f).1 ∧ NamesFresh (onMessage s ws f).1 := by
  cases f with
  | ping => exact ⟨hb, hn⟩
  | malformed => exact ⟨hb, hn⟩
  | other => exact ⟨hb, hn⟩
  | chat t m =>
    simp only [onMessage]
    cases t.toPropertyKey with
    | none => exact ⟨hb, hn⟩
    | some k =>
      simp only
      split <;> exact ⟨hb, hn⟩
  | login u =>
    simp only [onMessage]
    cases hk : u.toPropertyKey with
    | none => exact ⟨hb, hn⟩
    | some k =>
      simp only
      split
      · exact ⟨hb, hn⟩
      · rename_i ht
        have ht2 : (Users.get s.users k).truthy = false := by simpa using ht
        obtain ⟨hl, hp⟩ := (get_truthy_false s.users k).1 ht2
        refine ⟨?_, ?_⟩
        · intro x kx hx hdef hkx
          simp only [set_of_absent s.users k ws hl, lookup_append_single]
          by_cases hxw : x = ws
          · subst hxw
            simp only [Function.update_same] at hkx
            rw [hk] at hkx
            have hkk : k = kx := Option.some.inj hkx
            subst hkk
            simp [hl]
          · simp only [Function.update_noteq hxw] at hkx hdef
            simp [hb x kx hx hdef hkx]
        · intro x hdef
          by_cases hxw : x = ws
          · subst hxw
            simp only [Function.update_same]
            exact ⟨k, hk, hp⟩
          · simp only [Function.update_noteq hxw] at hdef ⊢
            exact hn x hdef

theorem close_preserves (s : State) (ws : Conn) (hopen : s.readyState ws ≠ .CLOSED)
    (hb : OwnsName s) (hn : NamesFresh s) :
    OwnsName (onClose (s.withReadyState ws .CLOSED) ws).1 ∧
      NamesFresh (onClose (s.withReadyState ws .CLOSED) ws).1 := by
  have hb0 : OwnsName (s.withReadyState ws .CLOSED) := by
    intro x k hx hdef hk
    by_cases hxw : x = ws
    · subst hxw
      simp [State.withReadyState] at hx
    · simp only [State.withReadyState, Function.update_noteq hxw] at hx
      exact hb x k hx hdef hk
  have hu : (s.withReadyState ws .CLOSED).username ws = s.username ws := rfl
  simp only [onClose, hu]
  by_cases htr : (s.username ws).truthy = true
  · simp only [htr, if_true]
    cases hk : (s.username ws).toPropertyKey with
    | none => exact ⟨hb0, hn⟩
    | some k =>
      refine ⟨?_, hn⟩
      intro x m hx hdef hxm
      have hxw : x ≠ ws := by
        intro h
        subst h
        simp [State.withReadyState] at hx
      have hx1 : s.readyState x ≠ .CLOSED := by
        simpa only [State.withReadyState, Function.update_noteq hxw] using hx
      have hmk : m ≠ k := by
        intro h
        subst h
        have h1 := hb x m hx1 hdef hxm
        have h2 := hb ws m hopen (truthy_ne_undefined _ htr) hk
        rw [h1] at h2
        exact hxw (Option.some.inj h2)
      show (Users.delete s.users k).lookup m = some x
      rw [lookup_delete_ne _ _ _ hmk]
      exact hb x m hx1 hdef hxm
  · simp only [htr, Bool.false_eq_true, if_false]
    exact ⟨hb0, hn⟩

theorem step_preserves (s s1 : State) (out : List Send) (e : Event)
    (h : step s e = some (s1, out)) (hb : OwnsName s) (hn : NamesFresh s) :
    OwnsName s1 ∧ NamesFresh s1 := by
  cases e with
  | message ws f =>
    simp only [step] at h
    split at h
    · have h1 : onMessage s ws f = (s1, out) := Option.some.inj h
      have := onMessage_preserves s ws f hb hn
      rw [h1] at this
      exact this
    · exact absurd h (by simp)
  | closing ws =>
    simp only [step] at h
    split at h
    · rename_i ho
      have h1 : s.withReadyState ws .CLOSING = s1 := congrArg Prod.fst (Option.some.inj h)
      subst h1
      refine ⟨?_, hn⟩
      intro x k hx hdef hk
      by_cases hxw : x = ws
      · subst hxw
        exact hb x k (by rw [ho]; decide) hdef hk
      · simp only [State.withReadyState, Function.update_noteq hxw] at hx
        exact hb x k hx hdef hk
    · exact absurd h (by simp)
  | close ws =>
    simp only [step] at h
    split at h
    · rename_i ho
      have h1 : onClose (s.withReadyState ws .CLOSED) ws = (s1, out) := Option.some.inj h
      have := close_preserves s ws ho hb hn
      rw [h1] at this
      exact this
    · exact absurd h (by simp)

theorem run_preserves (es : List Event) (s s1 : State) (h : run s es = some s1)
    (hb : OwnsName s) (hn : NamesFresh s) : OwnsName s1 ∧ NamesFresh s1 := by
  induction es generalizing s with
  | nil =>
    simp only [run, Option.some.injEq] at h
    subst h
    exact ⟨hb, hn⟩
  | cons e es ih =>
    simp only [run] at h
    cases hs : step s e with
    | none => simp [hs] at h
    | some p =>
      obtain ⟨s2, out⟩ := p
      simp only [hs] at h
      obtain ⟨hb2, hn2⟩ := step_preserves s s2 out e hs hb hn
      exact ih s2 h hb2 hn2

theorem reachable_invariants (s : State) (hr : Reachable s) : OwnsName s ∧ NamesFresh s := by
  obtain ⟨es, hes⟩ := hr
  refine run_preserves es init s hes ?_ ?_
  · intro x k _ hdef
    exact absurd rfl hdef
  · intro x hdef
    exact absurd rfl hdef

/-! ## The handlers, case by case -/

theorem mem_broadcastUsers (s : State) (p : Send) :
    p ∈ broadcastUsers s ↔
      p.1 ∈ s.users.values ∧ s.readyState p.1 = .OPEN ∧ p.2 = Message.users s.users.keys := by
  obtain ⟨x, m⟩ := p
  simp only [broadcastUsers, List.mem_filterMap]
  constructor
  · rintro ⟨y, hy, hyo⟩
    split at hyo
    · rename_i ho
      simp only [Option.some.injEq, Prod.mk.injEq] at hyo
      obtain ⟨h1, h2⟩ := hyo
      subst h1
      exact ⟨hy, ho, h2.symm⟩
    · exact absurd hyo (by simp)
  · rintro ⟨hy, ho, hm⟩
    refine ⟨x, hy, ?_⟩
    simp [ho, hm]

theorem onMessage_login_taken (s : State) (ws r : Conn) (v : JSValue) (n : String)
    (hv : v.toPropertyKey = some n) (h : s.users.lookup n = some r) :
    onMessage s ws (.login v) = (s, [(ws, .error "name used")]) := by
  simp [onMessage, hv, Users.get, h, Value.truthy]

theorem onMessage_login_free (s : State) (ws : Conn) (v : JSValue) (n : String)
    (hv : v.toPropertyKey = some n)
    (hfree : s.users.lookup n = none) (hown : objectPrototypeKeys.contains n = false) :
    onMessage s ws (.login v) =
      ({ users := s.users ++ [(n, ws)]
         username := Function.update s.username ws v
         readyState := s.readyState },
       broadcastUsers
        { users := s.users ++ [(n, ws)]
          username := Function.update s.username ws v
          readyState := s.readyState }) := by
  have ht : (Users.get s.users n).truthy = false :=
    (get_truthy_false s.users n).2 ⟨hfree, hown⟩
  simp only [onMessage, hv, ht, Bool.false_eq_true, if_false, set_of_absent s.users n ws hfree]

/-- Who is told what by `broadcastUsers`, in terms of the registry entries:
a `send` call is made to `x` exactly when some entry of the registry holds `x`
and `x` is `OPEN`; every payload is a `users` message, and a name is in its
list exactly when it is a key of the registry. -/
theorem broadcastUsers_spec (s : State) :
    (∀ x, (∃ m, (x, m) ∈ broadcastUsers s) ↔
        (∃ k, (k, x) ∈ s.users) ∧ s.readyState x = .OPEN) ∧
    (∀ p ∈ broadcastUsers s, ∃ l, p.2 = Message.users l ∧
        ∀ k, k ∈ l ↔ (s.users.lookup k).isSome = true) := by
  refine ⟨?_, ?_⟩
  · intro x
    constructor
    · rintro ⟨m, hm⟩
      rw [mem_broadcastUsers] at hm
      exact ⟨(mem_values s.users x).1 hm.1, hm.2.1⟩
    · rintro ⟨hk, ho⟩
      refine ⟨Message.users s.users.keys, ?_⟩
      rw [mem_broadcastUsers]
      exact ⟨(mem_values s.users x).2 hk, ho, rfl⟩
  · intro p hp
    rw [mem_broadcastUsers] at hp
    exact ⟨s.users.keys, hp.2.2, fun k => mem_keys s.users k⟩

/-! ## Registry liveness (C1) -/

/-- C1, evaluated on the code: after socket 0 logs in as `a`, logs in again as
`b` and closes, the registry still holds the key `a`, mapped to socket 0, whose
`close` event has happened; the `close` handler removed only the last name. -/
theorem registry_keeps_closed_socket :
    (run init reloginThenClose).map
        (fun s => (s.users, s.users.lookup "a", s.readyState 0, s.username 0))
      = some ([("a", 0)], some 0, ReadyState.CLOSED, JSValue.string "b") := by
  decide

/-- The same leak with a single login under the empty name: `if (ws.username)`
is false for it, so the `close` handler removes nothing. -/
theorem registry_keeps_empty_name :
    (run init [.message 0 (.login (.string "")), .close 0]).map
        (fun s => (s.users, s.readyState 0))
      = some ([("", 0)], ReadyState.CLOSED) := by
  decide

/-- The same leak with a login whose `username` is the number zero or is
absent: the keys `0` and `undefined` are bound and never removed. -/
theorem registry_keeps_falsy_values :
    (run init [.message 0 (.login (.number "0")), .close 0,
        .message 1 (.login .undefined), .close 1]).map
        (fun s => (s.users, s.readyState 0, s.readyState 1))
      = some ([("0", 0), ("undefined", 1)], ReadyState.CLOSED, ReadyState.CLOSED) := by
  decide

/-! ## Name uniqueness (C2) -/

/-- C2: in every reachable state, reached by frames of any kind (login frames
whose `username` is not a string or is absent included), two distinct sockets
that have not had their `close` event never carry the same `ws.username`, and
not even two values that denote the same name (property key). -/
theorem name_unique (s : State) (hr : Reachable s) (c1 c2 : Conn) (hne : c1 ≠ c2)
    (h1 : s.readyState c1 ≠ .CLOSED) (h2 : s.readyState c2 ≠ .CLOSED)
    (hdef : s.username c1 ≠ .undefined) :
    s.username c2 ≠ s.username c1 ∧
      (s.username c2 ≠ .undefined →
        (s.username c2).toPropertyKey ≠ (s.username c1).toPropertyKey) := by
  obtain ⟨hb, hn⟩ := reachable_invariants s hr
  obtain ⟨k, hk, _⟩ := hn c1 hdef
  have e1 := hb c1 k h1 hdef hk
  have key : s.username c2 ≠ .undefined →
      (s.username c2).toPropertyKey ≠ (s.username c1).toPropertyKey := by
    intro hdef2 hkey
    have e2 := hb c2 k h2 hdef2 (hkey.trans hk)
    rw [e1] at e2
    exact hne (Option.some.inj e2)
  refine ⟨?_, key⟩
  intro heq
  exact key (by rw [heq]; exact hdef) (by rw [heq])

theorem name_unique_witness :
    Reachable aliceAndBob ∧ aliceAndBob.username 0 = .string "a" ∧
      aliceAndBob.username 1 ≠ aliceAndBob.username 0 :=
  ⟨⟨[.message 0 (.login (.string "a")), .message 1 (.login (.string "b"))], rfl⟩,
    by decide,
    (name_unique aliceAndBob
      ⟨[.message 0 (.login (.string "a")), .message 1 (.login (.string "b"))], rfl⟩
      0 1 (by decide) (by decide) (by decide) (by decide)).1⟩

/-! ## A second login on a named socket (C3) -/

/-- C3 fails: socket 0, already logged in as `a`, sends `login b`; the registry
gains `b` and the socket is renamed.  When it sends `login a` again it is
answered with the error. -/
theorem second_login_not_noop :
    aliceBound.username 0 = .string "a" ∧
      (onMessage aliceBound 0 (.login (.string "b"))).1.users = [("a", 0), ("b", 0)] ∧
      (onMessage aliceBound 0 (.login (.string "b"))).1.users ≠ aliceBound.users ∧
      (onMessage aliceBound 0 (.login (.string "b"))).1.username 0 = .string "b" ∧
      (onMessage aliceBound 0 (.login (.string "a"))).2 = [(0, .error "name used")] := by
  decide

/-- C3 as amended: a login frame is handled the same way whether or not the
socket already carries a name.  If the requested name is a key of the registry
(for a named socket this includes its own name) the socket is sent the error
and nothing changes; if it is neither a key nor an inherited property name, it
is added to the registry for this socket, the socket is renamed to it, every
name the registry already held for this socket stays, the names of the other
sockets stay, and the presence broadcast, which contains no error, is sent. -/
theorem second_login_like_first (s : State) (c : Conn) (u : String) :
    (∀ r, s.users.lookup u = some r →
        onMessage s c (.login (.string u)) = (s, [(c, .error "name used")])) ∧
    (s.users.lookup u = none → objectPrototypeKeys.contains u = false →
        (onMessage s c (.login (.string u))).1.users = s.users ++ [(u, c)] ∧
        (onMessage s c (.login (.string u))).1.username c = .string u ∧
        (∀ x, x ≠ c → (onMessage s c (.login (.string u))).1.username x = s.username x) ∧
        (∀ n0, s.users.lookup n0 = some c →
          (onMessage s c (.login (.string u))).1.users.lookup n0 = some c) ∧
        (onMessage s c (.login (.string u))).2
          = broadcastUsers (onMessage s c (.login (.string u))).1 ∧
        ∀ p ∈ (onMessage s c (.login (.string u))).2, ∀ m, p.2 ≠ Message.error m) := by
  refine ⟨fun r hr => onMessage_login_taken s c r (.string u) u rfl hr, ?_⟩
  intro hfree hown
  rw [onMessage_login_free s c (.string u) u rfl hfree hown]
  refine ⟨rfl, by simp, ?_, ?_, rfl, ?_⟩
  · intro x hx
    simp [Function.update_noteq hx]
  · intro n0 h0
    simp only [lookup_append_single, h0]
  · intro p hp m hm
    rw [mem_broadcastUsers] at hp
    rw [hp.2.2] at hm
    exact Message.noConfusion hm

theorem second_login_like_first_witness :
    aliceBound.username 0 = .string "a" ∧
      onMessage aliceBound 0 (.login (.string "a"))
        = (aliceBound, [(0, .error "name used")]) ∧
      (onMessage aliceBound 0 (.login (.string "b"))).1.users
        = aliceBound.users ++ [("b", 0)] ∧
      (onMessage aliceBound 0 (.login (.string "b"))).1.username 0 = .string "b" ∧
      (onMessage aliceBound 0 (.login (.string "b"))).1.users.lookup "a" = some 0 :=
  ⟨by decide,
    (second_login_like_first aliceBound 0 "a").1 0 (by decide),
    ((second_login_like_first aliceBound 0 "b").2 (by decide) (by decide)).1,
    ((second_login_like_first aliceBound 0 "b").2 (by decide) (by decide)).2.1,
    ((second_login_like_first aliceBound 0 "b").2 (by decide) (by decide)).2.2.2.1 "a"
      (by decide)⟩

/-! ## Name collision (C4) -/

/-- A login under a name that is a key of the registry: the sender, and nobody
else, is sent the error, and the state is unchanged. -/
theorem login_collision (s : State) (c r : Conn) (n : String)
    (h : s.users.lookup n = some r) :
    onMessage s c (.login (.string n)) = (s, [(c, .error "name used")]) ∧
      sentTo (onMessage s c (.login (.string n))).2 c = [.error "name used"] ∧
      ∀ x, x ≠ c → sentTo (onMessage s c (.login (.string n))).2 x = [] := by
  rw [onMessage_login_taken s c r (.string n) n rfl h]
  refine ⟨rfl, by simp [sentTo], ?_⟩
  intro x hx
  have : ¬ c = x := fun h => hx h.symm
  simp [sentTo, this]

/-- Two successive logins under a name that is neither a key of the registry nor
an inherited property name: the first binds the name, the second is answered
with the error and changes nothing. -/
theorem two_logins_same_name (s : State) (c1 c2 : Conn) (n : String)
    (hfree : s.users.lookup n = none) (hown : objectPrototypeKeys.contains n = false) :
    (onMessage s c1 (.login (.string n))).1.users.lookup n = some c1 ∧
      (∀ p ∈ (onMessage s c1 (.login (.string n))).2, ∀ m, p.2 ≠ Message.error m) ∧
      onMessage (onMessage s c1 (.login (.string n))).1 c2 (.login (.string n)) =
        ((onMessage s c1 (.login (.string n))).1, [(c2, .error "name used")]) := by
  have h1 : (onMessage s c1 (.login (.string n))).1.users.lookup n = some c1 := by
    rw [onMessage_login_free s c1 (.string n) n rfl hfree hown]
    simp [lookup_append_single, hfree]
  refine ⟨h1, ?_, onMessage_login_taken _ c2 c1 (.string n) n rfl h1⟩
  intro p hp m hm
  rw [onMessage_login_free s c1 (.string n) n rfl hfree hown, mem_broadcastUsers] at hp
  rw [hp.2.2] at hm
  exact Message.noConfusion hm

/-- C4, evaluated on the code: on the fresh server the name `valueOf` is not a
key of the registry, yet the first of two logins under it (from socket 0) is
answered with the error and binds nothing, and so is the second (from socket 1):
`users["valueOf"]` reads the function inherited from `Object.prototype`. -/
theorem login_race_inherited_name :
    init.users.lookup "valueOf" = none ∧
      (onMessage init 0 (.login (.string "valueOf"))).2 = [(0, .error "name used")] ∧
      (onMessage init 0 (.login (.string "valueOf"))).1.users = [] ∧
      (onMessage init 0 (.login (.string "valueOf"))).1.username 0 = .undefined ∧
      (onMessage (onMessage init 0 (.login (.string "valueOf"))).1 1
          (.login (.string "valueOf"))).2
        = [(1, .error "name used")] := by
  decide

/-! ## Successful login and presence broadcast (C5) -/

/-- A login under a name that is neither a key of the registry nor an inherited
property name: the name is added for the sender, the sender is renamed, the
sockets that are sent something are exactly those held by an entry of the new
registry and `OPEN`, and each is sent a `users` message whose names are exactly
the keys of the new registry. -/
theorem login_success (s : State) (c : Conn) (n : String)
    (hfree : s.users.lookup n = none) (hown : objectPrototypeKeys.contains n = false) :
    (onMessage s c (.login (.string n))).1.users = s.users ++ [(n, c)] ∧
      (onMessage s c (.login (.string n))).1.username
        = Function.update s.username c (.string n) ∧
      (onMessage s c (.login (.string n))).1.readyState = s.readyState ∧
      (∀ x, (∃ m, (x, m) ∈ (onMessage s c (.login (.string n))).2) ↔
        (x = c ∨ ∃ k, (k, x) ∈ s.users) ∧ s.readyState x = .OPEN) ∧
      (∀ p ∈ (onMessage s c (.login (.string n))).2, ∃ l, p.2 = Message.users l ∧
        ∀ k, k ∈ l ↔ k = n ∨ (s.users.lookup k).isSome = true) := by
  rw [onMessage_login_free s c (.string n) n rfl hfree hown]
  obtain ⟨hrec, hlist⟩ := broadcastUsers_spec
    { users := s.users ++ [(n, c)], username := Function.update s.username c (.string n),
      readyState := s.readyState }
  refine ⟨rfl, rfl, rfl, ?_, ?_⟩
  · intro x
    rw [hrec x]
    simp only [List.mem_append, List.mem_singleton, Prod.mk.injEq]
    constructor
    · rintro ⟨⟨k, hk | ⟨_, hx⟩⟩, ho⟩
      · exact ⟨Or.inr ⟨k, hk⟩, ho⟩
      · exact ⟨Or.inl hx, ho⟩
    · rintro ⟨hx | ⟨k, hk⟩, ho⟩
      · exact ⟨⟨n, Or.inr ⟨rfl, hx⟩⟩, ho⟩
      · exact ⟨⟨k, Or.inl hk⟩, ho⟩
  · intro p hp
    obtain ⟨l, hl, hmem⟩ := hlist p hp
    refine ⟨l, hl, ?_⟩
    intro k
    rw [hmem k]
    simp only [lookup_append_single]
    cases hk : s.users.lookup k with
    | some x => simp
    | none =>
      by_cases hkn : k = n
      · simp [hkn]
      · simp [hkn]

/-- C5, evaluated on the code: on the fresh server the name `toString` is not a
key of the registry and socket 0 has no name, yet its login under `toString` is
refused: it is sent the error, nothing is bound and no `users` message is sent. -/
theorem login_inherited_name_refused :
    init.users.lookup "toString" = none ∧ init.username 0 = .undefined ∧
      (onMessage init 0 (.login (.string "toString"))).2 = [(0, .error "name used")] ∧
      (onMessage init 0 (.login (.string "toString"))).1.users = [] ∧
      (onMessage init 0 (.login (.string "toString"))).1.username 0 = .undefined := by
  decide

/-! ## Departure (C6) -/

theorem login_step_free (s : State) (c : Conn) (n : String)
    (hc : s.readyState c ≠ .CLOSED)
    (hfree : s.users.lookup n = none) (hown : objectPrototypeKeys.contains n = false) :
    ∃ s2 out2, step s (.message c (.login (.string n))) = some (s2, out2) ∧
      s2.users = s.users ++ [(n, c)] ∧
      s2.users.lookup n = some c ∧
      s2.username c = .string n ∧
      ∀ p ∈ out2, ∀ m, p.2 ≠ Message.error m := by
  refine ⟨(onMessage s c (.login (.string n))).1, (onMessage s c (.login (.string n))).2,
    ?_, ?_, ?_, ?_, ?_⟩
  · simp only [step, ne_eq, hc, not_false_eq_true, if_true]
  · rw [onMessage_login_free s c (.string n) n rfl hfree hown]
  · rw [onMessage_login_free s c (.string n) n rfl hfree hown]
    simp [lookup_append_single, hfree]
  · rw [onMessage_login_free s c (.string n) n rfl hfree hown]
    simp
  · intro p hp m hm
    rw [onMessage_login_free s c (.string n) n rfl hfree hown, mem_broadcastUsers] at hp
    rw [hp.2.2] at hm
    exact Message.noConfusion hm

/-- C6, evaluated on the code: socket 0 logs in as `a` and then as `b`, socket 1
logs in as `c`, so the registry holds `a` and `b` for socket 0.  The `close`
event of socket 0 deletes `b` only: `a` stays in the registry, the `users`
message sent to socket 1 still lists `a`, and a login under `a` from the fresh
socket 2 is answered with the error. -/
theorem close_leaves_earlier_name :
    Reachable twoNamesAndCarol ∧
      twoNamesAndCarol.users = [("a", 0), ("b", 0), ("c", 1)] ∧
      twoNamesAndCarol.users.lookup "a" = some 0 ∧
      (step twoNamesAndCarol (.close 0)).map
          (fun r => (r.1.users, r.2, (onMessage r.1 2 (.login (.string "a"))).2))
        = some ([("a", 0), ("c", 1)], [(1, Message.users ["a", "c"])],
            [(2, Message.error "name used")]) :=
  ⟨⟨[.message 0 (.login (.string "a")), .message 0 (.login (.string "b")),
      .message 1 (.login (.string "c"))], rfl⟩, by decide, by decide, by decide⟩

/-- What the `close` event does for the name a socket carries last: in a
reachable state let `c` be a socket that has not had its `close` event.  If
`ws.username` of `c` is the non-empty string `n`, then `n` is a key of the
registry held by `c`, the `close` event deletes exactly the entries of `n`, the
sockets that are sent something are exactly those held by a remaining entry and
`OPEN`, each is sent a `users` message whose names are exactly the remaining
keys (so not `n`), and a later login under `n` from any socket that has not
closed binds `n` without error.  If `ws.username` is `undefined`, the event
sends nothing and changes nothing but the `readyState` of `c`. -/
theorem close_removes_current_name (s : State) (hr : Reachable s) (c : Conn)
    (hopen : s.readyState c ≠ .CLOSED) :
    (s.username c = .undefined →
      step s (.close c) = some (s.withReadyState c .CLOSED, [])) ∧
    (∀ n, s.username c = .string n → n ≠ "" →
      ∃ s1 out, step s (.close c) = some (s1, out) ∧
        s.users.lookup n = some c ∧
        s1.users = s.users.filter (fun e => e.1 ≠ n) ∧
        s1.username = s.username ∧
        s1.users.lookup n = none ∧
        (∀ x, (∃ m, (x, m) ∈ out) ↔
          (∃ k, k ≠ n ∧ (k, x) ∈ s.users) ∧ x ≠ c ∧ s.readyState x = .OPEN) ∧
        (∀ p ∈ out, ∃ l, p.2 = Message.users l ∧ n ∉ l ∧
          ∀ k, k ∈ l ↔ k ≠ n ∧ (s.users.lookup k).isSome = true) ∧
        (∀ c2, c2 ≠ c → s1.readyState c2 ≠ .CLOSED →
          ∃ s2 out2, step s1 (.message c2 (.login (.string n))) = some (s2, out2) ∧
            s2.users = s1.users ++ [(n, c2)] ∧
            s2.users.lookup n = some c2 ∧
            s2.username c2 = .string n ∧
            ∀ p ∈ out2, ∀ m, p.2 ≠ Message.error m)) := by
  obtain ⟨hb, hfresh⟩ := reachable_invariants s hr
  refine ⟨?_, ?_⟩
  · intro hnone
    have h0 : (s.withReadyState c .CLOSED).username c = .undefined := hnone
    simp [step, hopen, onClose, h0, JSValue.truthy]
  · intro n hn hne
    have h0 : (s.withReadyState c .CLOSED).username c = .string n := hn
    have hdef : s.username c ≠ .undefined := by rw [hn]; exact JSValue.noConfusion
    have hkey : (s.username c).toPropertyKey = some n := by rw [hn]; rfl
    have hown : objectPrototypeKeys.contains n = false := by
      obtain ⟨k, hk, hp⟩ := hfresh c hdef
      rw [hkey] at hk
      rw [Option.some.inj hk]
      exact hp
    have hdel : (Users.delete s.users n).lookup n = none := lookup_delete_self s.users n
    obtain ⟨hrec, hlist⟩ := broadcastUsers_spec
      { users := s.users.delete n, username := s.username,
        readyState := (s.withReadyState c .CLOSED).readyState }
    refine ⟨{ users := s.users.delete n, username := s.username,
              readyState := (s.withReadyState c .CLOSED).readyState },
      broadcastUsers { users := s.users.delete n, username := s.username,
                       readyState := (s.withReadyState c .CLOSED).readyState },
      ?_, hb c n hopen hdef hkey, rfl, rfl, hdel, ?_, ?_, ?_⟩
    · have htr : (JSValue.string n).truthy = true := by simp [JSValue.truthy, hne]
      simp only [step, ne_eq, hopen, not_false_eq_true, if_true, onClose, h0, htr,
        JSValue.toPropertyKey]
      rfl
    · intro x
      rw [hrec x]
      simp only [Users.delete, List.mem_filter, State.withReadyState, ne_eq,
        decide_not, Bool.not_eq_true', decide_eq_false_iff_not]
      constructor
      · rintro ⟨⟨k, hk, hkn⟩, ho⟩
        have hxc : x ≠ c := by
          intro h
          subst h
          simp at ho
        refine ⟨⟨k, hkn, hk⟩, hxc, ?_⟩
        simpa [Function.update_noteq hxc] using ho
      · rintro ⟨⟨k, hkn, hk⟩, hxc, ho⟩
        refine ⟨⟨k, hk, hkn⟩, ?_⟩
        simpa [Function.update_noteq hxc] using ho
    · intro p hp
      obtain ⟨l, hl, hmem⟩ := hlist p hp
      have hmem2 : ∀ k, k ∈ l ↔ k ≠ n ∧ (s.users.lookup k).isSome = true := by
        intro k
        rw [hmem k]
        show ((Users.delete s.users n).lookup k).isSome = true ↔ _
        by_cases hkn : k = n
        · subst hkn
          simp [hdel]
        · rw [lookup_delete_ne _ _ _ hkn]
          simp [hkn]
      refine ⟨l, hl, ?_, hmem2⟩
      intro hin
      exact ((hmem2 n).1 hin).1 rfl
    · intro c2 _ hc2
      exact login_step_free _ c2 n hc2 hdel hown

/-! ## Directed chat (C7) -/

/-- C7: when the registry holds the socket `r` under the name `t` and the
sender `ws` carries the name `a`, a `chat` frame to `t` with text `m` makes
exactly one `send` call, the chat message from `a` with text `m` to `r`; no
other socket is sent anything and the state is unchanged. -/
theorem chat_delivery (s : State) (t : String) (r : Conn)
    (ht : s.users.lookup t = some r) (ws : Conn) (a : String)
    (ha : s.username ws = .string a) (m : String) :
    onMessage s ws (.chat (.string t) (.string m))
        = (s, [(r, .chat (.string a) (.string m))]) ∧
      sentTo (onMessage s ws (.chat (.string t) (.string m))).2 r
        = [.chat (.string a) (.string m)] ∧
      ∀ x, x ≠ r → sentTo (onMessage s ws (.chat (.string t) (.string m))).2 x = [] := by
  have h : onMessage s ws (.chat (.string t) (.string m))
      = (s, [(r, .chat (.string a) (.string m))]) := by
    simp [onMessage, JSValue.toPropertyKey, Users.get, ht, ha]
  rw [h]
  refine ⟨rfl, by simp [sentTo], ?_⟩
  intro x hx
  have : ¬ r = x := fun h => hx h.symm
  simp [sentTo, this]

theorem chat_delivery_witness :
    onMessage aliceAndBob 0 (.chat (.string "b") (.string "hey"))
      = (aliceAndBob, [(1, .chat (.string "a") (.string "hey"))]) :=
  (chat_delivery aliceAndBob "b" 1 (by decide) 0 "a" (by decide) "hey").1

/-! ## Silently ignored frames (C8) -/

/-- C8: the literal `ping`, a payload that does not parse, and a `chat` frame
whose recipient is not a key of the registry cause no `send` call and leave the
state unchanged. -/
theorem ignored_frames (s : State) (ws : Conn) :
    onMessage s ws .ping = (s, []) ∧
      onMessage s ws .malformed = (s, []) ∧
      ∀ t m, s.users.lookup t = none →
        onMessage s ws (.chat (.string t) (.string m)) = (s, []) := by
  refine ⟨rfl, rfl, ?_⟩
  intro t m ht
  simp only [onMessage, JSValue.toPropertyKey, Users.get, ht]
  cases hp : objectPrototypeKeys.contains t
  · rfl
  · rfl

theorem ignored_frames_witness :
    onMessage aliceBound 0 (.chat (.string "bob") (.string "hi")) = (aliceBound, []) ∧
      onMessage aliceBound 0 (.chat (.string "toString") (.string "hi"))
        = (aliceBound, []) :=
  ⟨(ignored_frames aliceBound 0).2.2 "bob" "hi" (by decide),
    (ignored_frames aliceBound 0).2.2 "toString" "hi" (by decide)⟩

/-- The same for a `chat` frame whose fields have any type: when the recipient
has no property key (its coercion throws) or its key is not a key of the
registry, nothing is sent and nothing changes. -/
theorem chat_unbound_any_fields (s : State) (ws : Conn) (t m : JSValue)
    (h : ∀ k, t.toPropertyKey = some k → s.users.lookup k = none) :
    onMessage s ws (.chat t m) = (s, []) := by
  simp only [onMessage]
  cases hk : t.toPropertyKey with
  | none => rfl
  | some k =>
    simp only [Users.get, h k hk]
    cases hp : objectPrototypeKeys.contains k
    · rfl
    · rfl

/-! ## Reload broadcast (C9) -/

theorem sentTo_reload_of_not_mem (s : State) (clients : List Conn) (c : Conn)
    (h : c ∉ clients) : sentTo (onWatch s clients).2 c = [] := by
  induction clients with
  | nil => rfl
  | cons x xs ih =>
    have hx : ¬ x = c := fun e => h (by simp [e])
    have hxs : c ∉ xs := fun e => h (List.mem_cons_of_mem _ e)
    have ih1 := ih hxs
    simp only [onWatch, sentTo] at ih1 ⊢
    by_cases ho : s.readyState x = .OPEN
    · simp only [List.filterMap_cons, ho, if_true, List.filter_cons, hx, decide_False,
        Bool.false_eq_true, if_false]
      exact ih1
    · simp only [List.filterMap_cons, ho, if_false]
      exact ih1

/-- C9: when the watched directory changes, every socket of the client set
`wss.clients` (a set, so without repetition) that is `OPEN` is sent the literal
`reload` exactly once and nothing else, every other socket is sent nothing, and
the state is unchanged. -/
theorem reload_broadcast (s : State) (clients : List Conn) (hset : clients.Nodup)
    (c : Conn) :
    (onWatch s clients).1 = s ∧
      sentTo (onWatch s clients).2 c =
        if c ∈ clients ∧ s.readyState c = .OPEN then [Message.reload] else [] := by
  refine ⟨rfl, ?_⟩
  induction clients with
  | nil => simp [onWatch, sentTo]
  | cons x xs ih =>
    obtain ⟨hx, hxs⟩ := List.nodup_cons.1 hset
    have ih1 := ih hxs
    by_cases hxc : x = c
    · subst hxc
      have hrest := sentTo_reload_of_not_mem s xs x hx
      simp only [onWatch, sentTo] at hrest ⊢
      by_cases ho : s.readyState x = .OPEN
      · simp only [List.filterMap_cons, ho, if_true, List.filter_cons, decide_True,
          List.map_cons, hrest, List.mem_cons, true_or, and_self]
      · simp only [List.filterMap_cons, ho, if_false, hrest, and_false]
    · have hcx : ¬ c = x := fun e => hxc e.symm
      simp only [onWatch, sentTo] at ih1 ⊢
      by_cases ho : s.readyState x = .OPEN
      · simp only [List.filterMap_cons, ho, if_true, List.filter_cons, hxc, decide_False,
          Bool.false_eq_true, if_false, List.mem_cons, hcx, false_or]
        exact ih1
      · simp only [List.filterMap_cons, ho, if_false, List.mem_cons, hcx, false_or]
        exact ih1

theorem reload_broadcast_witness :
    sentTo (onWatch aliceBound [0, 1]).2 1 = [Message.reload] ∧
      (onWatch aliceBound [0, 1]).1 = aliceBound :=
  ⟨(reload_broadcast aliceBound [0, 1] (by decide) 1).2,
    (reload_broadcast aliceBound [0, 1] (by decide) 1).1⟩

/-! ## Sender authenticity (C10) -/

/-- C10: in a reachable state, reached by frames of any kind, whatever frame a
socket `ws` that has not had its `close` event sends (fields of any type or
absent included), every chat message the handler delivers carries in `from` the
value of `ws.username` of the sender, never a value of the frame; and when that
value is not `undefined` and denotes the name `a` (for a string, the string
itself), the registry maps `a` to `ws`, before and after, and no other socket
that has not closed carries a value denoting `a`. -/
theorem chat_sender_authentic (s : State) (hr : Reachable s) (ws : Conn)
    (hopen : s.readyState ws ≠ .CLOSED) (f : Frame) (target : Conn)
    (v m : JSValue)
    (hsent : (target, Message.chat v m) ∈ (onMessage s ws f).2) :
    v = s.username ws ∧
      ∀ a, v ≠ .undefined → v.toPropertyKey = some a →
        s.users.lookup a = some ws ∧
        (onMessage s ws f).1.users.lookup a = some ws ∧
        ∀ x, x ≠ ws → s.readyState x ≠ .CLOSED → s.username x ≠ .undefined →
          (s.username x).toPropertyKey ≠ some a := by
  obtain ⟨hb, _⟩ := reachable_invariants s hr
  cases f with
  | ping => simp [onMessage] at hsent
  | malformed => simp [onMessage] at hsent
  | other => simp [onMessage] at hsent
  | login u =>
    exfalso
    simp only [onMessage] at hsent
    cases hk : u.toPropertyKey with
    | none => simp [hk] at hsent
    | some k =>
      simp only [hk] at hsent
      split at hsent
      · simp at hsent
      · rw [mem_broadcastUsers] at hsent
        exact Message.noConfusion hsent.2.2
  | chat t txt =>
    have hstate : (onMessage s ws (.chat t txt)).1 = s := by
      simp only [onMessage]
      cases t.toPropertyKey with
      | none => rfl
      | some k =>
        simp only
        split <;> rfl
    have ho : v = s.username ws := by
      simp only [onMessage] at hsent
      cases hk : t.toPropertyKey with
      | none => simp [hk] at hsent
      | some k =>
        simp only [hk] at hsent
        split at hsent
        · simp only [List.mem_singleton, Prod.mk.injEq, Message.chat.injEq] at hsent
          exact hsent.2.1
        · simp at hsent
        · simp at hsent
    refine ⟨ho, ?_⟩
    intro a hdef ha
    rw [ho] at hdef ha
    have hreg := hb ws a hopen hdef ha
    refine ⟨hreg, by rw [hstate]; exact hreg, ?_⟩
    intro x hx hxo hxdef hxa
    have h2 := hb x a hxo hxdef hxa
    rw [hreg] at h2
    exact hx (Option.some.inj h2).symm

theorem chat_sender_authentic_witness :
    Reachable aliceAndBob ∧
      (1, Message.chat (.string "a") (.string "hey"))
        ∈ (onMessage aliceAndBob 0 (.chat (.string "b") (.string "hey"))).2 ∧
      aliceAndBob.users.lookup "a" = some 0 :=
  ⟨⟨[.message 0 (.login (.string "a")), .message 1 (.login (.string "b"))], rfl⟩,
    by decide,
    ((chat_sender_authentic aliceAndBob
      ⟨[.message 0 (.login (.string "a")), .message 1 (.login (.string "b"))], rfl⟩
      0 (by decide) (.chat (.string "b") (.string "hey")) 1 (.string "a") (.string "hey")
      (by decide)).2 "a" (by decide) rfl).1⟩

end Server
